import Mathlib

/-!
Shallow embedding of `src/src/hardware/Motors/MotorGroup.cpp` (namespace
`lemlib`) together with a model of the single-actuator driver it consumes.

Modelling conventions:
* Doubles (`Angle`, `AngularVelocity`, `Number`) are modelled as `ℚ`;
  addition order is immaterial in exact arithmetic.
* The error sentinels of the driver contract are folded into `Option`:
  `none` stands for the positive-infinity angle sentinel, the
  `Cartridge::INVALID` enumerator, and the `BrakeMode::INVALID` enumerator
  respectively. A valid cartridge is carried as its nominal rpm rating
  (the value of `static_cast<int>(cartridge)` fed to `from_rpm`).
* The `INT_MAX` integer sentinel is the literal 2147483647.
* `m_motors` (a `std::vector<std::pair<std::int8_t, bool>>`) is a
  `List (Int × Bool)`; the `int8_t` narrowing performed when a port is
  stored is modelled by `wrap8`.
* The driver state lives in `Env : Int → MotorDev`, indexed by signed
  port. Mutating driver calls return an updated `Env`.
-/

/-- The three valid brake modes; `BrakeMode::INVALID` is modelled as `none`
in `Option BMode`. -/
inductive BMode where
  | coast : BMode
  | brake : BMode
  | hold : BMode
deriving DecidableEq

/-- Modelled from the spec: the single-actuator driver (`lemlib::Motor`,
whose implementation file is not under `src/`; only `Motor.hpp` is). Each
field is the outcome the device currently yields for the corresponding
driver primitive: `installed` is the result of the physical connectivity
probe (`pros::Motor::is_installed`), `angleRead` the result of
`Motor::getAngle` (`none` = infinity sentinel), `cartRead` the result of
`Motor::getCartridge` (`none` = `Cartridge::INVALID`, `some r` = a
cartridge whose nominal rating is `r` rpm), `brakeRead` the result of
`Motor::getBrakeMode`, and the `...Ok` flags whether the corresponding
fallible command succeeds (per §4.1 every operation either succeeds or
reports its sentinel). -/
structure MotorDev where
  installed : Bool
  angleRead : Option ℚ
  cartRead : Option ℚ
  brakeRead : Option BMode
  setAngleOk : Bool
  setBrakeOk : Bool
  moveOk : Bool
  moveVelOk : Bool
  brakeOk : Bool
deriving DecidableEq

/-- The driver environment: the device visible behind each signed port. -/
abbrev Env := Int → MotorDev

/-- The `INT_MAX` error sentinel returned by the integer-valued operations. -/
def INTMAX : Int := 2147483647

/-- Modelled from the spec: `Motor::isConnected` (implementation absent from
`src/`), the connectivity check of the rotational-sensor interface; per the
header contract it returns 1 if the motor is connected and 0 if not. -/
def Motor.isConnected (env : Env) (p : Int) : Int :=
  if (env p).installed then 1 else 0

/-- Modelled from the spec: `Motor::setAngle` (implementation absent from
`src/`): a non-blocking relative-angle set that returns 0 on success and
`INT_MAX` on failure; after a successful set the motor reads back the
written angle. -/
def setAngleDev (env : Env) (p : Int) (a : ℚ) : Int × Env :=
  if (env p).setAngleOk then
    (0, fun q => if q = p then { env q with angleRead := some a } else env q)
  else (INTMAX, env)

/-- Modelled from the spec: `Motor::setBrakeMode` (implementation absent
from `src/`): returns 0 on success and `INT_MAX` on failure; on success the
device subsequently reads back the written mode. -/
def setBrakeDev (env : Env) (p : Int) (mode : BMode) : Int × Env :=
  if (env p).setBrakeOk then
    (0, fun q => if q = p then { env q with brakeRead := some mode } else env q)
  else (INTMAX, env)

/-- The port of the `pros::Motor` constructed from a `bool` in
`configureMotor`'s loop (`pros::Motor m = pros::Motor(pair.second)`): the
`bool` converts to `int8_t` 1 or 0. -/
def boolPort (b : Bool) : Int := if b then 1 else 0

/-- `MotorGroup::configureMotor`, lines 210-218: walk `m_motors`, build a
motor from `pair.second`, skip entries whose brake-mode read is INVALID,
and on the first valid one write the mode back and stop, recording failure
if the write fails. Returns the `success` outcome of this step and the
environment. -/
def brakeStep (env : Env) : List (Int × Bool) → Bool × Env
  | [] => (true, env)
  | pr :: rest =>
    match (env (boolPort pr.2)).brakeRead with
    | none => brakeStep env rest
    | some mode =>
      let w := setBrakeDev env (boolPort pr.2) mode
      if w.1 = 0 then (true, w.2) else (false, w.2)

/-- The outcome of the brake-copy loop as a function of the flag sequence
of the list it walks (the only data of the entries it looks at). -/
def brakeOutcome (env : Env) : List Bool → Bool
  | [] => true
  | b :: rest =>
    match (env (boolPort b)).brakeRead with
    | none => brakeOutcome env rest
    | some _ => (env (boolPort b)).setBrakeOk

/-- `MotorGroup::configureMotor`, lines 240-256: sum the raw angles of the
given motors, counting as errors those whose angle read is the infinity
sentinel or whose cartridge is INVALID. Note the source adds `result`
without any gear-ratio correction. -/
def rawAngleSum (env : Env) : List Int → ℚ × Nat
  | [] => (0, 0)
  | p :: ps =>
    let r := rawAngleSum env ps
    match (env p).angleRead with
    | none => (r.1, r.2 + 1)
    | some a =>
      match (env p).cartRead with
      | none => (r.1, r.2 + 1)
      | some _ => (r.1 + a, r.2)

/-- `MotorGroup::configureMotor` (lines 199-265), faithful to the source
including its quirks: the brake-copy loop builds its motor from
`pair.second` (a `bool`); the angle average is of raw, uncorrected peer
angles; `return success = false` after a failed `setAngle` returns the
`int` value 0; otherwise `!success` is returned. The argument `mm` is the
current `m_motors` contents seen by the function. -/
def configureMotor (env : Env) (_ov : ℚ) (mm : List (Int × Bool)) (port : Int) : Int × Env :=
  let sb := brakeStep env mm
  let env1 := sb.2
  let success := sb.1 && ((env1 port).cartRead).isSome
  let peers := (mm.filter (fun pr => pr.1.natAbs != port.natAbs && (env1 pr.1).installed)).map Prod.fst
  let s := rawAngleSum env1 peers
  let angle : ℚ := if peers.length ≠ s.2 then s.1 / ((peers.length : ℚ) - (s.2 : ℚ)) else 0
  let sa := setAngleDev env1 port angle
  if sa.1 = INTMAX then (0, sa.2) else (if success then 0 else 1, sa.2)

/-- Whether `configureMotor` returns 0 ("success") on list view `mm`:
either `setAngle` fails (the buggy `return success = false` path yields 0)
or both the brake-copy step succeeded and the cartridge was valid. -/
def includeStep (env : Env) (mm : List (Int × Bool)) (port : Int) : Bool :=
  !(env port).setAngleOk ||
    (brakeOutcome env (mm.map (fun pr => pr.2)) && ((env port).cartRead).isSome)

/-- `MotorGroup::getMotors` (lines 175-195) as a fold over the remaining
entries (`todo`), with the already-processed entries accumulated in
reverse in `done` (the source mutates `m_motors` in place while iterating,
so `configureMotor` sees updated flags for processed entries and original
flags for the rest). Returns the working set of ports, the updated
`m_motors`, and the environment. -/
def getMotorsGo (ov : ℚ) : List (Int × Bool) → Env → List (Int × Bool) →
    List Int × List (Int × Bool) × Env
  | [], env, done => ([], done.reverse, env)
  | (p, f) :: rest, env, done =>
    if (env p).installed = false then getMotorsGo ov rest env ((p, false) :: done)
    else if f then
      let r := getMotorsGo ov rest env ((p, true) :: done)
      (p :: r.1, r.2)
    else
      let c := configureMotor env ov (done.reverse ++ (p, f) :: rest) p
      if c.1 = 0 then
        let r := getMotorsGo ov rest c.2 ((p, true) :: done)
        (p :: r.1, r.2)
      else getMotorsGo ov rest c.2 ((p, false) :: done)

/-- The flag/working-set dynamics of `getMotorsGo` as a pure function of
the starting environment (inclusion never depends on the angle values,
the only driver state the loop mutates). Returns the updated entries for
`todo`. -/
def flagsGo (env : Env) : List (Int × Bool) → List (Int × Bool) → List (Int × Bool)
  | [], _ => []
  | (p, f) :: rest, done =>
    if (env p).installed = false then (p, false) :: flagsGo env rest ((p, false) :: done)
    else if f then (p, true) :: flagsGo env rest ((p, true) :: done)
    else if includeStep env (done.reverse ++ (p, f) :: rest) p then
      (p, true) :: flagsGo env rest ((p, true) :: done)
    else (p, false) :: flagsGo env rest ((p, false) :: done)

/-- `MotorGroup::getMotors` on the full member list. -/
def getMotors (env : Env) (ov : ℚ) (mm : List (Int × Bool)) :
    List Int × List (Int × Bool) × Env :=
  getMotorsGo ov mm env []

/-- `MotorGroup::move` (lines 17-26): apply `Motor::move` to every
reachable member, succeed iff at least one member succeeded. -/
def MotorGroup.move (env : Env) (ov : ℚ) (mm : List (Int × Bool)) (_percent : ℚ) :
    Int × List (Int × Bool) × Env :=
  let g := getMotors env ov mm
  (if g.1.any (fun p => (g.2.2 p).moveOk) then 0 else INTMAX, g.2.1, g.2.2)

/-- The velocity commands issued by `MotorGroup::moveVelocity`'s loop
(lines 31-41): members whose cartridge is INVALID are skipped, the others
are commanded `velocity * (from_rpm(cartridge) / outputVelocity)`. Returns
the issued `(port, velocity)` list and the success flag. -/
def velCmds (env : Env) (ov v : ℚ) : List Int → List (Int × ℚ) × Bool
  | [] => ([], false)
  | p :: ps =>
    let r := velCmds env ov v ps
    match (env p).cartRead with
    | none => r
    | some c => ((p, v * (c / ov)) :: r.1, (env p).moveVelOk || r.2)

/-- `MotorGroup::moveVelocity` (lines 28-44). Components: return code,
issued commands, updated members, environment. -/
def MotorGroup.moveVelocity (env : Env) (ov : ℚ) (mm : List (Int × Bool)) (v : ℚ) :
    Int × List (Int × ℚ) × List (Int × Bool) × Env :=
  let g := getMotors env ov mm
  let r := velCmds g.2.2 ov v g.1
  (if r.2 then 0 else INTMAX, r.1, g.2.1, g.2.2)

/-- `MotorGroup::brake` (lines 46-55). -/
def MotorGroup.brake (env : Env) (ov : ℚ) (mm : List (Int × Bool)) :
    Int × List (Int × Bool) × Env :=
  let g := getMotors env ov mm
  (if g.1.any (fun p => (g.2.2 p).brakeOk) then 0 else INTMAX, g.2.1, g.2.2)

/-- The loop of `MotorGroup::setBrakeMode` (lines 60-63): issue the mode to
every member, tracking whether any set succeeded. -/
def setBrakeModeAll (mode : BMode) : List Int → Env → Bool × Env
  | [], env => (false, env)
  | p :: ps, env =>
    let w := setBrakeDev env p mode
    let r := setBrakeModeAll mode ps w.2
    (w.1 = 0 || r.1, r.2)

/-- `MotorGroup::setBrakeMode` (lines 57-66). -/
def MotorGroup.setBrakeMode (env : Env) (ov : ℚ) (mm : List (Int × Bool)) (mode : BMode) :
    Int × List (Int × Bool) × Env :=
  let g := getMotors env ov mm
  let r := setBrakeModeAll mode g.1 g.2.2
  (if r.1 then 0 else INTMAX, g.2.1, r.2)

/-- `MotorGroup::isConnected` (lines 75-83): 1 as soon as one reachable
member's probe returns 1, else 0. -/
def MotorGroup.isConnected (env : Env) (ov : ℚ) (mm : List (Int × Bool)) :
    Int × List (Int × Bool) × Env :=
  let g := getMotors env ov mm
  (if g.1.any (fun p => Motor.isConnected g.2.2 p == 1) then 1 else 0, g.2.1, g.2.2)

/-- `MotorGroup::getAngle`'s accumulation loop (lines 90-106): per member,
an angle-sentinel or INVALID-cartridge read counts as an error, otherwise
`result * (outputVelocity / from_rpm(cartridge))` is accumulated. -/
def gearAngleSum (env : Env) (ov : ℚ) : List Int → ℚ × Nat
  | [] => (0, 0)
  | p :: ps =>
    let r := gearAngleSum env ov ps
    match (env p).angleRead with
    | none => (r.1, r.2 + 1)
    | some a =>
      match (env p).cartRead with
      | none => (r.1, r.2 + 1)
      | some c => (r.1 + a * (ov / c), r.2)

/-- `MotorGroup::getSize` (lines 131-137): fetch the working set afresh and
count the members whose `isConnected()` result is nonzero. -/
def MotorGroup.getSize (env : Env) (ov : ℚ) (mm : List (Int × Bool)) :
    Int × List (Int × Bool) × Env :=
  let g := getMotors env ov mm
  ((g.1.countP (fun p => Motor.isConnected g.2.2 p != 0) : Nat), g.2.1, g.2.2)

/-- `MotorGroup::getAngle` (lines 85-111): `none` models the
positive-infinity sentinel returned when every member errored; otherwise
the accumulated angle is divided by `getSize() - errors` (with `getSize`
re-running `getMotors` on the updated state). -/
def MotorGroup.getAngle (env : Env) (ov : ℚ) (mm : List (Int × Bool)) :
    Option ℚ × List (Int × Bool) × Env :=
  let g := getMotors env ov mm
  let s := gearAngleSum g.2.2 ov g.1
  if s.2 = g.1.length then (none, g.2.1, g.2.2)
  else
    let z := MotorGroup.getSize g.2.2 ov g.2.1
    (some (s.1 / ((z.1 : ℚ) - (s.2 : ℚ))), z.2.1, z.2.2)

/-- The `int → int8_t` narrowing applied when a port is stored in
`m_motors` (two's-complement wrap into [-128, 127]). -/
def wrap8 (p : Int) : Int := (p + 128) % 256 - 128

/-- The `MotorGroup` constructors (lines 7-15): record each given port with
the flag set to `true`; no duplicate check is performed. -/
def MotorGroup.mk (ports : List Int) : List (Int × Bool) :=
  ports.map (fun p => (wrap8 p, true))

/-- `MotorGroup::addMotor(int)` (lines 139-153): reject (with `INT_MAX`,
`errno = EEXIST`) any port whose absolute value matches a tracked entry,
otherwise run `configureMotor` and append the port with the flag recording
whether configuration returned 0. -/
def MotorGroup.addMotor (env : Env) (ov : ℚ) (mm : List (Int × Bool)) (port : Int) :
    Int × List (Int × Bool) × Env :=
  if mm.any (fun pr => pr.1.natAbs == port.natAbs) then (INTMAX, mm, env)
  else
    let c := configureMotor env ov mm port
    (c.1, mm ++ [(wrap8 port, c.1 == 0)], c.2)

/-- `MotorGroup::removeMotor` (lines 163-173): erase every entry whose
port matches the given port in absolute value. -/
def MotorGroup.removeMotor (mm : List (Int × Bool)) (port : Int) : List (Int × Bool) :=
  mm.filter (fun pr => pr.1.natAbs != port.natAbs)

/-- A member of the working set that yielded a valid angle and a valid
cartridge in `getAngle`'s loop. -/
def validB (env : Env) (p : Int) : Bool :=
  ((env p).angleRead).isSome && ((env p).cartRead).isSome

/-- The gear-ratio-corrected angle contributed by a valid member:
`raw * (outputVelocity / nominal)`. -/
def corr (env : Env) (ov : ℚ) (p : Int) : ℚ :=
  ((env p).angleRead).getD 0 * (ov / ((env p).cartRead).getD 1)

/-- Environments that agree on every driver field the control flow of the
group reads (everything except the mutable angle reading). -/
def envInv (e1 e2 : Env) : Prop :=
  ∀ p, (e2 p).installed = (e1 p).installed ∧ (e2 p).cartRead = (e1 p).cartRead ∧
    (e2 p).brakeRead = (e1 p).brakeRead ∧ (e2 p).setAngleOk = (e1 p).setAngleOk ∧
    (e2 p).setBrakeOk = (e1 p).setBrakeOk ∧ (e2 p).moveOk = (e1 p).moveOk ∧
    (e2 p).moveVelOk = (e1 p).moveVelOk ∧ (e2 p).brakeOk = (e1 p).brakeOk

/-- Group states reachable from any construction by `addMotor` /
`removeMotor` calls (each step under an arbitrary driver environment). -/
inductive Reachable : List (Int × Bool) → Prop where
  | init (ports : List Int) : Reachable (MotorGroup.mk ports)
  | addM (env : Env) (ov : ℚ) (mm : List (Int × Bool)) (port : Int) :
      Reachable mm → Reachable (MotorGroup.addMotor env ov mm port).2.1
  | removeM (mm : List (Int × Bool)) (port : Int) :
      Reachable mm → Reachable (MotorGroup.removeMotor mm port)

/-- Group states reachable from a construction whose stored ports have
pairwise distinct absolute values, by `removeMotor` calls and `addMotor`
calls whose port is within the stored 8-bit range. -/
inductive ReachableD : List (Int × Bool) → Prop where
  | init (ports : List Int) (h : (ports.map (fun p => (wrap8 p).natAbs)).Nodup) :
      ReachableD (MotorGroup.mk ports)
  | addM (env : Env) (ov : ℚ) (mm : List (Int × Bool)) (port : Int) (hp : wrap8 port = port) :
      ReachableD mm → ReachableD (MotorGroup.addMotor env ov mm port).2.1
  | removeM (mm : List (Int × Bool)) (port : Int) :
      ReachableD mm → ReachableD (MotorGroup.removeMotor mm port)

/-- A disconnected device: everything fails. -/
def devOff : MotorDev :=
  { installed := false, angleRead := none, cartRead := none, brakeRead := none,
    setAngleOk := false, setBrakeOk := false, moveOk := false, moveVelOk := false,
    brakeOk := false }

/-- A healthy device with the given angle and cartridge rating and no
reported brake mode. -/
def devOk (a c : ℚ) : MotorDev :=
  { installed := true, angleRead := some a, cartRead := some c, brakeRead := none,
    setAngleOk := true, setBrakeOk := true, moveOk := true, moveVelOk := true,
    brakeOk := true }

/-- Two healthy members: port 1 reads 10 with a 100 rpm cartridge, port 2
reads 40 with a 200 rpm cartridge. -/
def envA : Env := fun p => if p = 1 then devOk 10 100 else if p = 2 then devOk 40 200 else devOff

/-- One member, connected, whose angle read always errors. -/
def envErr : Env :=
  fun p => if p = 1 then { devOk 0 100 with angleRead := none } else devOff

/-- Peers on ports 5 and 6 (angles 10 and 40, cartridges 100 and 200 rpm)
and a reconnecting unit on port 9 with a 100 rpm cartridge. -/
def envC2 : Env :=
  fun p =>
    if p = 5 then devOk 10 100
    else if p = 6 then devOk 40 200
    else if p = 9 then devOk 0 100
    else devOff

/-- A tracked peer on port 5 reporting brake mode `hold`, and a
reconnecting unit on port 9 currently reporting `coast`. -/
def envC3 : Env :=
  fun p =>
    if p = 5 then { devOk 10 100 with brakeRead := some BMode.hold }
    else if p = 9 then { devOk 0 100 with brakeRead := some BMode.coast }
    else devOff

/-- A connected member on port 5 whose cartridge read is INVALID (so
reconfiguration fails) but whose angle set succeeds. -/
def envC4 : Env :=
  fun p => if p = 5 then { devOk 0 100 with cartRead := none } else devOff

/-! ### Basic facts about the driver model -/

theorem MotorDev.brake_eta (d : MotorDev) (mode : BMode) (h : d.brakeRead = some mode) :
    { d with brakeRead := some mode } = d := by
  cases d
  simp_all

theorem setBrakeDev_fst (env : Env) (p : Int) (mode : BMode) :
    (setBrakeDev env p mode).1 = if (env p).setBrakeOk then 0 else INTMAX := by
  unfold setBrakeDev
  split <;> simp_all

theorem setBrakeDev_self (env : Env) (p : Int) (mode : BMode)
    (h : (env p).brakeRead = some mode) : (setBrakeDev env p mode).2 = env := by
  unfold setBrakeDev
  by_cases hs : (env p).setBrakeOk
  · simp only [hs, if_true]
    funext q
    by_cases hq : q = p
    · subst hq
      simpa using MotorDev.brake_eta (env q) mode h
    · simp [hq]
  · simp [hs]

theorem setAngleDev_fst (env : Env) (p : Int) (a : ℚ) :
    (setAngleDev env p a).1 = if (env p).setAngleOk then 0 else INTMAX := by
  unfold setAngleDev
  split <;> simp_all

theorem brakeStep_eq (env : Env) :
    ∀ l : List (Int × Bool), brakeStep env l = (brakeOutcome env (l.map (fun pr => pr.2)), env) := by
  intro l
  induction l with
  | nil => rfl
  | cons pr rest ih =>
    simp only [brakeStep, brakeOutcome, List.map_cons]
    cases h : (env (boolPort pr.2)).brakeRead with
    | none => simpa [h] using ih
    | some mode =>
      by_cases hs : (env (boolPort pr.2)).setBrakeOk
      · simp [h, hs, setBrakeDev_fst, setBrakeDev_self env (boolPort pr.2) mode h]
      · simp [h, hs, setBrakeDev_fst, INTMAX, setBrakeDev_self env (boolPort pr.2) mode h]

theorem envInv_refl (e : Env) : envInv e e := by
  intro p
  exact ⟨rfl, rfl, rfl, rfl, rfl, rfl, rfl, rfl⟩

theorem envInv_trans {e1 e2 e3 : Env} (h12 : envInv e1 e2) (h23 : envInv e2 e3) :
    envInv e1 e3 := by
  intro p
  obtain ⟨a1, a2, a3, a4, a5, a6, a7, a8⟩ := h12 p
  obtain ⟨b1, b2, b3, b4, b5, b6, b7, b8⟩ := h23 p
  exact ⟨b1.trans a1, b2.trans a2, b3.trans a3, b4.trans a4, b5.trans a5,
    b6.trans a6, b7.trans a7, b8.trans a8⟩

theorem envInv_setAngleDev (env : Env) (p : Int) (a : ℚ) :
    envInv env (setAngleDev env p a).2 := by
  unfold setAngleDev
  by_cases hs : (env p).setAngleOk
  · simp only [hs, if_true]
    intro q
    by_cases hq : q = p <;> simp [hq]
  · simp only [hs]
    exact envInv_refl env

theorem envInv_brakeOutcome {e1 e2 : Env} (h : envInv e1 e2) :
    ∀ l : List Bool, brakeOutcome e2 l = brakeOutcome e1 l := by
  intro l
  induction l with
  | nil => rfl
  | cons b rest ih =>
    simp only [brakeOutcome]
    obtain ⟨-, -, hbr, -, hsb, -⟩ := h (boolPort b)
    rw [hbr, hsb]
    cases (e1 (boolPort b)).brakeRead with
    | none => exact ih
    | some m => rfl

theorem envInv_includeStep {e1 e2 : Env} (h : envInv e1 e2) (mm : List (Int × Bool))
    (port : Int) : includeStep e2 mm port = includeStep e1 mm port := by
  unfold includeStep
  obtain ⟨-, hc, -, hsa, -⟩ := h port
  rw [hc, hsa, envInv_brakeOutcome h]

theorem configureMotor_fst (env : Env) (ov : ℚ) (mm : List (Int × Bool)) (port : Int) :
    (configureMotor env ov mm port).1 = if includeStep env mm port then 0 else 1 := by
  unfold configureMotor includeStep
  rw [brakeStep_eq]
  by_cases hsa : (env port).setAngleOk
  · simp [setAngleDev_fst, hsa, INTMAX]
  · simp [setAngleDev_fst, hsa]

theorem configureMotor_snd (env : Env) (ov : ℚ) (mm : List (Int × Bool)) (port : Int) :
    envInv env (configureMotor env ov mm port).2 := by
  unfold configureMotor
  rw [brakeStep_eq]
  by_cases hsa : (env port).setAngleOk
  · simp only [setAngleDev_fst, hsa, if_true]
    split <;> exact envInv_setAngleDev env port _
  · simp only [setAngleDev_fst, hsa, if_false]
    split <;> exact envInv_setAngleDev env port _

/-! ### Unfolding equations for the membership loop -/

theorem getMotorsGo_notInst (ov : ℚ) (p : Int) (f : Bool) (rest : List (Int × Bool))
    (env : Env) (done : List (Int × Bool)) (hp : (env p).installed = false) :
    getMotorsGo ov ((p, f) :: rest) env done = getMotorsGo ov rest env ((p, false) :: done) := by
  simp [getMotorsGo, hp]

theorem getMotorsGo_conn (ov : ℚ) (p : Int) (rest : List (Int × Bool))
    (env : Env) (done : List (Int × Bool)) (hp : (env p).installed = true) :
    getMotorsGo ov ((p, true) :: rest) env done =
      (p :: (getMotorsGo ov rest env ((p, true) :: done)).1,
        (getMotorsGo ov rest env ((p, true) :: done)).2) := by
  simp [getMotorsGo, hp]

theorem getMotorsGo_cfgOk (ov : ℚ) (p : Int) (rest : List (Int × Bool))
    (env : Env) (done : List (Int × Bool)) (hp : (env p).installed = true)
    (hc : (configureMotor env ov (done.reverse ++ (p, false) :: rest) p).1 = 0) :
    getMotorsGo ov ((p, false) :: rest) env done =
      (p :: (getMotorsGo ov rest (configureMotor env ov (done.reverse ++ (p, false) :: rest) p).2
          ((p, true) :: done)).1,
        (getMotorsGo ov rest (configureMotor env ov (done.reverse ++ (p, false) :: rest) p).2
          ((p, true) :: done)).2) := by
  simp [getMotorsGo, hp, hc]

theorem getMotorsGo_cfgFail (ov : ℚ) (p : Int) (rest : List (Int × Bool))
    (env : Env) (done : List (Int × Bool)) (hp : (env p).installed = true)
    (hc : (configureMotor env ov (done.reverse ++ (p, false) :: rest) p).1 ≠ 0) :
    getMotorsGo ov ((p, false) :: rest) env done =
      getMotorsGo ov rest (configureMotor env ov (done.reverse ++ (p, false) :: rest) p).2
        ((p, false) :: done) := by
  simp [getMotorsGo, hp, hc]

theorem flagsGo_notInst (env : Env) (p : Int) (f : Bool) (rest done : List (Int × Bool))
    (hp : (env p).installed = false) :
    flagsGo env ((p, f) :: rest) done = (p, false) :: flagsGo env rest ((p, false) :: done) := by
  simp [flagsGo, hp]

theorem flagsGo_conn (env : Env) (p : Int) (rest done : List (Int × Bool))
    (hp : (env p).installed = true) :
    flagsGo env ((p, true) :: rest) done = (p, true) :: flagsGo env rest ((p, true) :: done) := by
  simp [flagsGo, hp]

theorem flagsGo_cfgOk (env : Env) (p : Int) (rest done : List (Int × Bool))
    (hp : (env p).installed = true)
    (hc : includeStep env (done.reverse ++ (p, false) :: rest) p = true) :
    flagsGo env ((p, false) :: rest) done = (p, true) :: flagsGo env rest ((p, true) :: done) := by
  simp [flagsGo, hp, hc]

theorem flagsGo_cfgFail (env : Env) (p : Int) (rest done : List (Int × Bool))
    (hp : (env p).installed = true)
    (hc : includeStep env (done.reverse ++ (p, false) :: rest) p = false) :
    flagsGo env ((p, false) :: rest) done = (p, false) :: flagsGo env rest ((p, false) :: done) := by
  simp [flagsGo, hp, hc]

/-! ### Structure of the flag dynamics -/

theorem flagsGo_map_fst (env : Env) :
    ∀ todo done : List (Int × Bool), (flagsGo env todo done).map Prod.fst = todo.map Prod.fst := by
  intro todo
  induction todo with
  | nil => intro done; rfl
  | cons hd rest ih =>
    intro done
    obtain ⟨p, f⟩ := hd
    cases hp : (env p).installed with
    | false => rw [flagsGo_notInst env p f rest done hp]; simp [ih]
    | true =>
      cases f with
      | true => rw [flagsGo_conn env p rest done hp]; simp [ih]
      | false =>
        cases hc : includeStep env (done.reverse ++ (p, false) :: rest) p with
        | true => rw [flagsGo_cfgOk env p rest done hp hc]; simp [ih]
        | false => rw [flagsGo_cfgFail env p rest done hp hc]; simp [ih]

theorem flagsGo_true_inst (env : Env) :
    ∀ todo done : List (Int × Bool), ∀ pr ∈ flagsGo env todo done,
      pr.2 = true → (env pr.1).installed = true := by
  intro todo
  induction todo with
  | nil =>
    intro done pr hmem
    simp [flagsGo] at hmem
  | cons hd rest ih =>
    intro done pr hmem htrue
    obtain ⟨p, f⟩ := hd
    cases hp : (env p).installed with
    | false =>
      rw [flagsGo_notInst env p f rest done hp] at hmem
      rcases List.mem_cons.mp hmem with heq | htail
      · rw [heq] at htrue; exact absurd htrue (by simp)
      · exact ih _ pr htail htrue
    | true =>
      cases f with
      | true =>
        rw [flagsGo_conn env p rest done hp] at hmem
        rcases List.mem_cons.mp hmem with heq | htail
        · rw [heq]; exact hp
        · exact ih _ pr htail htrue
      | false =>
        cases hc : includeStep env (done.reverse ++ (p, false) :: rest) p with
        | true =>
          rw [flagsGo_cfgOk env p rest done hp hc] at hmem
          rcases List.mem_cons.mp hmem with heq | htail
          · rw [heq]; exact hp
          · exact ih _ pr htail htrue
        | false =>
          rw [flagsGo_cfgFail env p rest done hp hc] at hmem
          rcases List.mem_cons.mp hmem with heq | htail
          · rw [heq] at htrue; exact absurd htrue (by simp)
          · exact ih _ pr htail htrue

theorem flagsGo_mem_true (env : Env) :
    ∀ todo done : List (Int × Bool), ∀ pr ∈ todo,
      pr.2 = true → (env pr.1).installed = true → (pr.1, true) ∈ flagsGo env todo done := by
  intro todo
  induction todo with
  | nil =>
    intro done pr hmem
    simp at hmem
  | cons hd rest ih =>
    intro done pr hmem htrue hinst
    obtain ⟨p, f⟩ := hd
    rcases List.mem_cons.mp hmem with heq | htail
    · have hpp : p = pr.1 := by rw [heq]
      have hff : f = true := by rw [heq] at htrue; exact htrue
      subst hpp hff
      rw [flagsGo_conn env pr.1 rest done hinst]
      exact List.mem_cons_self _ _
    · cases hp : (env p).installed with
      | false =>
        rw [flagsGo_notInst env p f rest done hp]
        exact List.mem_cons_of_mem _ (ih _ pr htail htrue hinst)
      | true =>
        cases f with
        | true =>
          rw [flagsGo_conn env p rest done hp]
          exact List.mem_cons_of_mem _ (ih _ pr htail htrue hinst)
        | false =>
          cases hc : includeStep env (done.reverse ++ (p, false) :: rest) p with
          | true =>
            rw [flagsGo_cfgOk env p rest done hp hc]
            exact List.mem_cons_of_mem _ (ih _ pr htail htrue hinst)
          | false =>
            rw [flagsGo_cfgFail env p rest done hp hc]
            exact List.mem_cons_of_mem _ (ih _ pr htail htrue hinst)

theorem getMotorsGo_eq (ov : ℚ) :
    ∀ (todo : List (Int × Bool)) (env0 env : Env) (done : List (Int × Bool)),
      envInv env0 env →
      (getMotorsGo ov todo env done).1 =
        ((flagsGo env0 todo done).filter (fun pr => pr.2)).map Prod.fst ∧
      (getMotorsGo ov todo env done).2.1 = done.reverse ++ flagsGo env0 todo done ∧
      envInv env0 (getMotorsGo ov todo env done).2.2 := by
  intro todo
  induction todo with
  | nil =>
    intro env0 env done h
    exact ⟨rfl, by simp [getMotorsGo, flagsGo], h⟩
  | cons hd rest ih =>
    intro env0 env done h
    obtain ⟨p, f⟩ := hd
    have hinst : (env p).installed = (env0 p).installed := (h p).1
    cases hp : (env0 p).installed with
    | false =>
      obtain ⟨e1, e2, e3⟩ := ih env0 env ((p, false) :: done) h
      rw [getMotorsGo_notInst ov p f rest env done (hinst.trans hp),
        flagsGo_notInst env0 p f rest done hp]
      refine ⟨by simpa using e1, ?_, e3⟩
      rw [e2]
      simp
    | true =>
      cases f with
      | true =>
        obtain ⟨e1, e2, e3⟩ := ih env0 env ((p, true) :: done) h
        rw [getMotorsGo_conn ov p rest env done (hinst.trans hp),
          flagsGo_conn env0 p rest done hp]
        refine ⟨by simpa using e1, ?_, e3⟩
        rw [e2]
        simp
      | false =>
        have hcfg : (configureMotor env ov (done.reverse ++ (p, false) :: rest) p).1 =
            if includeStep env0 (done.reverse ++ (p, false) :: rest) p then 0 else 1 := by
          rw [configureMotor_fst, envInv_includeStep h]
        have hc2 : envInv env0 (configureMotor env ov (done.reverse ++ (p, false) :: rest) p).2 :=
          envInv_trans h (configureMotor_snd env ov _ p)
        cases hc : includeStep env0 (done.reverse ++ (p, false) :: rest) p with
        | true =>
          obtain ⟨e1, e2, e3⟩ :=
            ih env0 (configureMotor env ov (done.reverse ++ (p, false) :: rest) p).2
              ((p, true) :: done) hc2
          rw [getMotorsGo_cfgOk ov p rest env done (hinst.trans hp) (by rw [hcfg, hc]; rfl),
            flagsGo_cfgOk env0 p rest done hp hc]
          refine ⟨by simpa using e1, ?_, e3⟩
          rw [e2]
          simp
        | false =>
          obtain ⟨e1, e2, e3⟩ :=
            ih env0 (configureMotor env ov (done.reverse ++ (p, false) :: rest) p).2
              ((p, false) :: done) hc2
          rw [getMotorsGo_cfgFail ov p rest env done (hinst.trans hp)
              (by rw [hcfg, hc]; simp),
            flagsGo_cfgFail env0 p rest done hp hc]
          refine ⟨by simpa using e1, ?_, e3⟩
          rw [e2]
          simp

/-! ### Stability of the brake-copy outcome under flag updates -/

theorem brakeOutcome_stop (env : Env) (m : BMode)
    (h0 : (env (boolPort false)).brakeRead = some m) :
    ∀ pre s1 s2 : List Bool,
      brakeOutcome env (pre ++ false :: s1) = brakeOutcome env (pre ++ false :: s2) := by
  intro pre
  induction pre with
  | nil => intro s1 s2; simp only [List.nil_append, brakeOutcome, h0]
  | cons b pre ih =>
    intro s1 s2
    cases hb : (env (boolPort b)).brakeRead with
    | none => simp only [List.cons_append, brakeOutcome, hb]; exact ih s1 s2
    | some mb => simp only [List.cons_append, brakeOutcome, hb]

theorem brakeOutcome_none_false (env : Env) (h0 : (env (boolPort false)).brakeRead = none) :
    ∀ l : List Bool, brakeOutcome env l = false →
      (∃ mb, (env (boolPort true)).brakeRead = some mb) ∧
        (env (boolPort true)).setBrakeOk = false := by
  intro l
  induction l with
  | nil => intro h; simp [brakeOutcome] at h
  | cons b rest ih =>
    intro h
    cases b with
    | false =>
      simp only [brakeOutcome, h0] at h
      exact ih h
    | true =>
      by_cases hb : ∃ mb, (env (boolPort true)).brakeRead = some mb
      · obtain ⟨mb, hmb⟩ := hb
        simp only [brakeOutcome, hmb] at h
        exact ⟨⟨mb, hmb⟩, h⟩
      · have hnone : (env (boolPort true)).brakeRead = none := by
          cases hx : (env (boolPort true)).brakeRead with
          | none => rfl
          | some m => exact absurd ⟨m, hx⟩ hb
        simp only [brakeOutcome, hnone] at h
        exact ih h

theorem brakeOutcome_none_mem (env : Env) (h0 : (env (boolPort false)).brakeRead = none)
    (mb : BMode) (h1 : (env (boolPort true)).brakeRead = some mb)
    (hs : (env (boolPort true)).setBrakeOk = false) :
    ∀ l : List Bool, true ∈ l → brakeOutcome env l = false := by
  intro l
  induction l with
  | nil => intro h; simp at h
  | cons b rest ih =>
    intro hmem
    cases b with
    | false =>
      simp only [brakeOutcome, h0]
      exact ih (by simpa using hmem)
    | true =>
      simp only [brakeOutcome, h1]
      exact hs

theorem brakeOutcome_key (env : Env) (pre s1 s2 : List Bool)
    (hf : brakeOutcome env (pre ++ false :: s1) = false)
    (hmem : true ∈ pre ++ false :: s2) :
    brakeOutcome env (pre ++ false :: s2) = false := by
  cases h0 : (env (boolPort false)).brakeRead with
  | some m => rw [← brakeOutcome_stop env m h0 pre s1 s2]; exact hf
  | none =>
    obtain ⟨⟨mb, h1⟩, hs⟩ := brakeOutcome_none_false env h0 _ hf
    exact brakeOutcome_none_mem env h0 mb h1 hs _ hmem

theorem includeKey (env : Env) (D : List (Int × Bool)) (p : Int) (R1 R2 : List (Int × Bool))
    (h1 : includeStep env (D ++ (p, false) :: R1) p = false)
    (hex : ∃ pr ∈ D ++ (p, false) :: R2, pr.2 = true) :
    includeStep env (D ++ (p, false) :: R2) p = false := by
  unfold includeStep at h1 ⊢
  cases hsa : (env p).setAngleOk with
  | false => rw [hsa] at h1; simp at h1
  | true =>
    cases hcart : ((env p).cartRead).isSome with
    | false => simp [hsa, hcart]
    | true =>
      simp only [hsa, hcart, Bool.not_true, Bool.false_or, Bool.and_true] at h1 ⊢
      have hm1 : (D ++ (p, false) :: R1).map (fun pr => pr.2) =
          D.map (fun pr => pr.2) ++ false :: R1.map (fun pr => pr.2) := by simp
      have hm2 : (D ++ (p, false) :: R2).map (fun pr => pr.2) =
          D.map (fun pr => pr.2) ++ false :: R2.map (fun pr => pr.2) := by simp
      rw [hm1] at h1
      rw [hm2]
      refine brakeOutcome_key env _ _ _ h1 ?_
      rw [← hm2]
      obtain ⟨pr, hpr, h2⟩ := hex
      exact List.mem_map.mpr ⟨pr, hpr, h2⟩

/-! ### A second pass of the membership loop is a fixed point -/

theorem flagsGo_good (env : Env) :
    ∀ todo done : List (Int × Bool),
      (∃ pr ∈ done.reverse ++ flagsGo env todo done, pr.2 = true) →
      ∀ pr ∈ flagsGo env todo done,
        (pr.2 = true → (env pr.1).installed = true) ∧
        (pr.2 = false → (env pr.1).installed = false ∨
          includeStep env (done.reverse ++ flagsGo env todo done) pr.1 = false) := by
  intro todo
  induction todo with
  | nil =>
    intro done hex pr hmem
    simp [flagsGo] at hmem
  | cons hd rest ih =>
    intro done hex pr hmem
    obtain ⟨p, f⟩ := hd
    cases hp : (env p).installed with
    | false =>
      rw [flagsGo_notInst env p f rest done hp] at hex hmem ⊢
      have hlist : done.reverse ++ (p, false) :: flagsGo env rest ((p, false) :: done) =
          ((p, false) :: done).reverse ++ flagsGo env rest ((p, false) :: done) := by simp
      rcases List.mem_cons.mp hmem with heq | htail
      · refine ⟨?_, fun _ => Or.inl (by rw [heq]; exact hp)⟩
        intro htrue
        rw [heq] at htrue
        exact absurd htrue (by simp)
      · have := ih ((p, false) :: done) (by rw [← hlist]; exact hex) pr htail
        rw [← hlist] at this
        exact this
    | true =>
      cases f with
      | true =>
        rw [flagsGo_conn env p rest done hp] at hex hmem ⊢
        have hlist : done.reverse ++ (p, true) :: flagsGo env rest ((p, true) :: done) =
            ((p, true) :: done).reverse ++ flagsGo env rest ((p, true) :: done) := by simp
        rcases List.mem_cons.mp hmem with heq | htail
        · refine ⟨fun _ => by rw [heq]; exact hp, ?_⟩
          intro hfalse
          rw [heq] at hfalse
          exact absurd hfalse (by simp)
        · have := ih ((p, true) :: done) (by rw [← hlist]; exact hex) pr htail
          rw [← hlist] at this
          exact this
      | false =>
        cases hc : includeStep env (done.reverse ++ (p, false) :: rest) p with
        | true =>
          rw [flagsGo_cfgOk env p rest done hp hc] at hex hmem ⊢
          have hlist : done.reverse ++ (p, true) :: flagsGo env rest ((p, true) :: done) =
              ((p, true) :: done).reverse ++ flagsGo env rest ((p, true) :: done) := by simp
          rcases List.mem_cons.mp hmem with heq | htail
          · refine ⟨fun _ => by rw [heq]; exact hp, ?_⟩
            intro hfalse
            rw [heq] at hfalse
            exact absurd hfalse (by simp)
          · have := ih ((p, true) :: done) (by rw [← hlist]; exact hex) pr htail
            rw [← hlist] at this
            exact this
        | false =>
          rw [flagsGo_cfgFail env p rest done hp hc] at hex hmem ⊢
          have hlist : done.reverse ++ (p, false) :: flagsGo env rest ((p, false) :: done) =
              ((p, false) :: done).reverse ++ flagsGo env rest ((p, false) :: done) := by simp
          rcases List.mem_cons.mp hmem with heq | htail
          · refine ⟨?_, fun _ => ?_⟩
            · intro htrue
              rw [heq] at htrue
              exact absurd htrue (by simp)
            · right
              have hkey := includeKey env done.reverse p rest
                (flagsGo env rest ((p, false) :: done)) hc hex
              rw [heq]
              exact hkey
          · have := ih ((p, false) :: done) (by rw [← hlist]; exact hex) pr htail
            rw [← hlist] at this
            exact this

theorem flagsGo_fixed (env : Env) :
    ∀ todo done : List (Int × Bool),
      (∀ pr ∈ todo,
        (pr.2 = true → (env pr.1).installed = true) ∧
        (pr.2 = false → (env pr.1).installed = false ∨
          includeStep env (done.reverse ++ todo) pr.1 = false)) →
      flagsGo env todo done = todo := by
  intro todo
  induction todo with
  | nil => intro done hGood; rfl
  | cons hd rest ih =>
    intro done hGood
    obtain ⟨p, f⟩ := hd
    have hhd := hGood (p, f) (List.mem_cons_self _ _)
    have htail : ∀ b, ((p, b) :: done).reverse ++ rest = done.reverse ++ (p, b) :: rest := by
      intro b
      simp
    cases f with
    | true =>
      have hinst : (env p).installed = true := hhd.1 rfl
      rw [flagsGo_conn env p rest done hinst]
      have : flagsGo env rest ((p, true) :: done) = rest := by
        refine ih ((p, true) :: done) ?_
        intro pr hpr
        have := hGood pr (List.mem_cons_of_mem _ hpr)
        rw [htail true]
        exact this
      rw [this]
    | false =>
      rcases hhd.2 rfl with hinst | hinc
      · rw [flagsGo_notInst env p false rest done hinst]
        have : flagsGo env rest ((p, false) :: done) = rest := by
          refine ih ((p, false) :: done) ?_
          intro pr hpr
          have := hGood pr (List.mem_cons_of_mem _ hpr)
          rw [htail false]
          exact this
        rw [this]
      · cases hp : (env p).installed with
        | false =>
          rw [flagsGo_notInst env p false rest done hp]
          have : flagsGo env rest ((p, false) :: done) = rest := by
            refine ih ((p, false) :: done) ?_
            intro pr hpr
            have := hGood pr (List.mem_cons_of_mem _ hpr)
            rw [htail false]
            exact this
          rw [this]
        | true =>
          rw [flagsGo_cfgFail env p rest done hp hinc]
          have : flagsGo env rest ((p, false) :: done) = rest := by
            refine ih ((p, false) :: done) ?_
            intro pr hpr
            have := hGood pr (List.mem_cons_of_mem _ hpr)
            rw [htail false]
            exact this
          rw [this]

/-! ### Group-level packaging -/

theorem getMotors_parts (env : Env) (ov : ℚ) (mm : List (Int × Bool)) :
    (getMotors env ov mm).1 = ((flagsGo env mm []).filter (fun pr => pr.2)).map Prod.fst ∧
    (getMotors env ov mm).2.1 = flagsGo env mm [] ∧
    envInv env (getMotors env ov mm).2.2 := by
  have h := getMotorsGo_eq ov mm env env [] (envInv_refl env)
  unfold getMotors
  simpa using h

theorem ms_installed (env : Env) (ov : ℚ) (mm : List (Int × Bool)) :
    ∀ p ∈ (getMotors env ov mm).1, (env p).installed = true := by
  obtain ⟨h1, -, -⟩ := getMotors_parts env ov mm
  intro p hp
  rw [h1] at hp
  obtain ⟨pr, hpr, hfst⟩ := List.mem_map.mp hp
  have hmem := List.mem_of_mem_filter hpr
  have hflag : pr.2 = true := by simpa using List.of_mem_filter hpr
  rw [← hfst]
  exact flagsGo_true_inst env mm [] pr hmem hflag

theorem getSize_fst (env : Env) (ov : ℚ) (mm : List (Int × Bool)) :
    (MotorGroup.getSize env ov mm).1 =
      ((getMotors env ov mm).1.countP
        (fun p => Motor.isConnected (getMotors env ov mm).2.2 p != 0) : Nat) := rfl

theorem getSize_stable (env : Env) (ov : ℚ) (mm : List (Int × Bool))
    (hne : (getMotors env ov mm).1 ≠ []) :
    (MotorGroup.getSize (getMotors env ov mm).2.2 ov (getMotors env ov mm).2.1).1 =
      ((getMotors env ov mm).1.length : Int) := by
  obtain ⟨h1, h2, h3⟩ := getMotors_parts env ov mm
  have hex : ∃ pr ∈ flagsGo env mm [], pr.2 = true := by
    rw [h1] at hne
    have hfne : (flagsGo env mm []).filter (fun pr => pr.2) ≠ [] := by
      intro hnil
      rw [hnil] at hne
      exact hne rfl
    obtain ⟨pr, hpr⟩ := List.exists_mem_of_ne_nil _ hfne
    exact ⟨pr, List.mem_of_mem_filter hpr, by simpa using List.of_mem_filter hpr⟩
  have hfix : flagsGo env (flagsGo env mm []) [] = flagsGo env mm [] := by
    refine flagsGo_fixed env (flagsGo env mm []) [] ?_
    intro pr hpr
    have hg := flagsGo_good env mm [] (by simpa using hex) pr hpr
    simpa using hg
  obtain ⟨b1, b2, b3⟩ :=
    getMotorsGo_eq ov (flagsGo env mm []) env (getMotors env ov mm).2.2 [] h3
  rw [hfix] at b1
  have hunf : getMotors (getMotors env ov mm).2.2 ov (flagsGo env mm []) =
      getMotorsGo ov (flagsGo env mm []) (getMotors env ov mm).2.2 [] := rfl
  rw [getSize_fst, h2, hunf, b1, ← h1]
  have hcount : (getMotors env ov mm).1.countP
      (fun p => Motor.isConnected
        (getMotorsGo ov (flagsGo env mm []) (getMotors env ov mm).2.2 []).2.2 p != 0) =
      (getMotors env ov mm).1.length := by
    apply List.countP_eq_length.mpr
    intro p hp
    have hi : (env p).installed = true := ms_installed env ov mm p hp
    have hinv := (b3 p).1
    simp [Motor.isConnected, hinv, hi]
  rw [hcount]

theorem gearAngleSum_fst (env : Env) (ov : ℚ) :
    ∀ l : List Int,
      (gearAngleSum env ov l).1 = ((l.filter (validB env)).map (corr env ov)).sum := by
  intro l
  induction l with
  | nil => rfl
  | cons p ps ih =>
    cases ha : (env p).angleRead with
    | none => simp [gearAngleSum, ha, validB, ih]
    | some a =>
      cases hc : (env p).cartRead with
      | none => simp [gearAngleSum, ha, hc, validB, ih]
      | some c =>
        simp [gearAngleSum, ha, hc, validB, corr, ih]
        ring

theorem gearAngleSum_snd (env : Env) (ov : ℚ) :
    ∀ l : List Int,
      (gearAngleSum env ov l).2 + (l.filter (validB env)).length = l.length := by
  intro l
  induction l with
  | nil => rfl
  | cons p ps ih =>
    cases ha : (env p).angleRead with
    | none =>
      simp only [gearAngleSum, ha, validB, List.filter_cons, List.length_cons]
      simp [ha]
      omega
    | some a =>
      cases hc : (env p).cartRead with
      | none =>
        simp only [gearAngleSum, ha, hc, validB, List.filter_cons, List.length_cons]
        simp [ha, hc]
        omega
      | some c =>
        simp only [gearAngleSum, ha, hc, validB, List.filter_cons, List.length_cons]
        simp [ha, hc]
        omega

theorem getMotorsGo_allTrue (ov : ℚ) :
    ∀ (todo : List (Int × Bool)) (env : Env) (done : List (Int × Bool)),
      (∀ pr ∈ todo, pr.2 = true ∧ (env pr.1).installed = true) →
      getMotorsGo ov todo env done = (todo.map Prod.fst, done.reverse ++ todo, env) := by
  intro todo
  induction todo with
  | nil => intro env done h; simp [getMotorsGo]
  | cons hd rest ih =>
    intro env done h
    obtain ⟨p, f⟩ := hd
    obtain ⟨hf, hinst⟩ := h (p, f) (List.mem_cons_self _ _)
    have hff : f = true := hf
    subst hff
    rw [getMotorsGo_conn ov p rest env done hinst]
    have := ih env ((p, true) :: done) (fun pr hpr => h pr (List.mem_cons_of_mem _ hpr))
    rw [this]
    simp

theorem velCmds_eq (env : Env) (ov v : ℚ) :
    ∀ ports : List Int,
      (velCmds env ov v ports).1 =
        ports.filterMap (fun p => ((env p).cartRead).map (fun c => (p, v * (c / ov)))) := by
  intro ports
  induction ports with
  | nil => rfl
  | cons p ps ih =>
    cases hc : (env p).cartRead with
    | none => simp [velCmds, hc, ih]
    | some c => simp [velCmds, hc, ih]

theorem setBrakeDev_setBrakeOk (env : Env) (p : Int) (mode : BMode) :
    ∀ q, ((setBrakeDev env p mode).2 q).setBrakeOk = (env q).setBrakeOk := by
  intro q
  unfold setBrakeDev
  split
  · by_cases hq : q = p <;> simp [hq]
  · rfl

theorem setBrakeModeAll_fst (mode : BMode) :
    ∀ (ports : List Int) (env0 env : Env),
      (∀ q, (env q).setBrakeOk = (env0 q).setBrakeOk) →
      (setBrakeModeAll mode ports env).1 = ports.any (fun p => (env0 p).setBrakeOk) := by
  intro ports
  induction ports with
  | nil => intro env0 env h; rfl
  | cons p ps ih =>
    intro env0 env h
    have hrest : ∀ q, ((setBrakeDev env p mode).2 q).setBrakeOk = (env0 q).setBrakeOk :=
      fun q => (setBrakeDev_setBrakeOk env p mode q).trans (h q)
    have hr := ih env0 (setBrakeDev env p mode).2 hrest
    simp only [setBrakeModeAll, List.any_cons]
    rw [hr, setBrakeDev_fst, h p]
    cases hb : (env0 p).setBrakeOk <;> simp [INTMAX]

theorem any_iff_countP (l : List Int) (f : Int → Bool) :
    l.any f = true ↔ 1 ≤ l.countP f := by
  induction l with
  | nil => simp
  | cons a l ih =>
    cases hf : f a with
    | true => simp [List.countP_cons, hf]
    | false =>
      simp only [List.any_cons, hf, Bool.false_or, List.countP_cons, if_neg]
      simp [hf, ih]

theorem getAngle_fst (env : Env) (ov : ℚ) (mm : List (Int × Bool)) :
    (MotorGroup.getAngle env ov mm).1 =
      if (gearAngleSum (getMotors env ov mm).2.2 ov (getMotors env ov mm).1).2 =
          (getMotors env ov mm).1.length then none
      else
        some ((gearAngleSum (getMotors env ov mm).2.2 ov (getMotors env ov mm).1).1 /
          (((MotorGroup.getSize (getMotors env ov mm).2.2 ov (getMotors env ov mm).2.1).1 : ℚ) -
            ((gearAngleSum (getMotors env ov mm).2.2 ov (getMotors env ov mm).1).2 : ℚ))) := by
  simp only [MotorGroup.getAngle]
  split_ifs with h <;> rfl

theorem flagsGo_edge (env : Env) :
    ∀ (pre : List (Int × Bool)) (p : Int) (rest done : List (Int × Bool)),
      (env p).installed = true →
      ∃ (pre2 rest2 : List (Int × Bool)) (b : Bool),
        flagsGo env (pre ++ (p, false) :: rest) done = pre2 ++ (p, b) :: rest2 ∧
        pre2.length = pre.length ∧
        (b = true ↔ includeStep env (done.reverse ++ (pre2 ++ (p, false) :: rest)) p = true) := by
  intro pre
  induction pre with
  | nil =>
    intro p rest done hp
    cases hc : includeStep env (done.reverse ++ (p, false) :: rest) p with
    | true =>
      refine ⟨[], flagsGo env rest ((p, true) :: done), true, ?_, rfl, ?_⟩
      · simpa using flagsGo_cfgOk env p rest done hp hc
      · simpa using hc
    | false =>
      refine ⟨[], flagsGo env rest ((p, false) :: done), false, ?_, rfl, ?_⟩
      · simpa using flagsGo_cfgFail env p rest done hp hc
      · simp [hc]
  | cons hd pre ih =>
    intro p rest done hp
    obtain ⟨q, g⟩ := hd
    cases hq : (env q).installed with
    | false =>
      obtain ⟨pre2, rest2, b, heq, hlen, hiff⟩ := ih p rest ((q, false) :: done) hp
      refine ⟨(q, false) :: pre2, rest2, b, ?_, by simp [hlen], ?_⟩
      · rw [List.cons_append, flagsGo_notInst env q g _ done hq, heq]
        rfl
      · have hv : ((q, false) :: done).reverse ++ (pre2 ++ (p, false) :: rest) =
            done.reverse ++ ((q, false) :: pre2 ++ (p, false) :: rest) := by simp
        rw [hv] at hiff
        exact hiff
    | true =>
      cases g with
      | true =>
        obtain ⟨pre2, rest2, b, heq, hlen, hiff⟩ := ih p rest ((q, true) :: done) hp
        refine ⟨(q, true) :: pre2, rest2, b, ?_, by simp [hlen], ?_⟩
        · rw [List.cons_append, flagsGo_conn env q _ done hq, heq]
          rfl
        · have hv : ((q, true) :: done).reverse ++ (pre2 ++ (p, false) :: rest) =
              done.reverse ++ ((q, true) :: pre2 ++ (p, false) :: rest) := by simp
          rw [hv] at hiff
          exact hiff
      | false =>
        cases hc2 : includeStep env (done.reverse ++ (q, false) :: (pre ++ (p, false) :: rest)) q with
        | true =>
          obtain ⟨pre2, rest2, b, heq, hlen, hiff⟩ := ih p rest ((q, true) :: done) hp
          refine ⟨(q, true) :: pre2, rest2, b, ?_, by simp [hlen], ?_⟩
          · rw [List.cons_append, flagsGo_cfgOk env q _ done hq hc2, heq]
            rfl
          · have hv : ((q, true) :: done).reverse ++ (pre2 ++ (p, false) :: rest) =
                done.reverse ++ ((q, true) :: pre2 ++ (p, false) :: rest) := by simp
            rw [hv] at hiff
            exact hiff
        | false =>
          obtain ⟨pre2, rest2, b, heq, hlen, hiff⟩ := ih p rest ((q, false) :: done) hp
          refine ⟨(q, false) :: pre2, rest2, b, ?_, by simp [hlen], ?_⟩
          · rw [List.cons_append, flagsGo_cfgFail env q _ done hq hc2, heq]
            rfl
          · have hv : ((q, false) :: done).reverse ++ (pre2 ++ (p, false) :: rest) =
                done.reverse ++ ((q, false) :: pre2 ++ (p, false) :: rest) := by simp
            rw [hv] at hiff
            exact hiff

/-! ### Claim theorems -/

/-- Claim C1: for every group state and driver environment, whenever at
least one reachable member yields a valid angle and cartridge,
`MotorGroup::getAngle` returns the unweighted arithmetic mean of the
gear-ratio-corrected angles (raw angle times `outputVelocity / nominal`)
over exactly the reachable members with valid readings; errored members
are excluded from both the sum and the divisor. -/
theorem getAngle_mean (env : Env) (ov : ℚ) (mm : List (Int × Bool))
    (h : (getMotors env ov mm).1.filter (validB (getMotors env ov mm).2.2) ≠ []) :
    (MotorGroup.getAngle env ov mm).1 =
      some ((((getMotors env ov mm).1.filter (validB (getMotors env ov mm).2.2)).map
          (corr (getMotors env ov mm).2.2 ov)).sum /
        (((getMotors env ov mm).1.filter (validB (getMotors env ov mm).2.2)).length : ℚ)) := by
  have hsnd := gearAngleSum_snd (getMotors env ov mm).2.2 ov (getMotors env ov mm).1
  have hfst := gearAngleSum_fst (getMotors env ov mm).2.2 ov (getMotors env ov mm).1
  have hVpos : 0 < ((getMotors env ov mm).1.filter (validB (getMotors env ov mm).2.2)).length :=
    List.length_pos.mpr h
  have hne : (gearAngleSum (getMotors env ov mm).2.2 ov (getMotors env ov mm).1).2 ≠
      (getMotors env ov mm).1.length := by omega
  have hmsne : (getMotors env ov mm).1 ≠ [] := by
    intro h0
    rw [h0] at h
    simp at h
  have hsz := getSize_stable env ov mm hmsne
  rw [getAngle_fst, if_neg hne, hsz, hfst]
  have hq : (((getMotors env ov mm).1.length : Int) : ℚ) -
      ((gearAngleSum (getMotors env ov mm).2.2 ov (getMotors env ov mm).1).2 : ℚ) =
      (((getMotors env ov mm).1.filter (validB (getMotors env ov mm).2.2)).length : ℚ) := by
    have h2 : ((gearAngleSum (getMotors env ov mm).2.2 ov (getMotors env ov mm).1).2 : ℚ) +
        (((getMotors env ov mm).1.filter (validB (getMotors env ov mm).2.2)).length : ℚ) =
        ((getMotors env ov mm).1.length : ℚ) := by
      exact_mod_cast hsnd
    push_cast
    linarith
  rw [hq]

/-- Witness for C1 at the spec's own example: members with gear ratios 1
and 2 reading 10 and 40 average to 15 in the output frame. -/
theorem getAngle_mean_w :
    (getMotors envA 100 [(1, true), (2, true)]).1.filter
      (validB (getMotors envA 100 [(1, true), (2, true)]).2.2) ≠ [] ∧
    (MotorGroup.getAngle envA 100 [(1, true), (2, true)]).1 = some 15 := by
  constructor
  · decide
  · have h := getAngle_mean envA 100 [(1, true), (2, true)] (by decide)
    rw [h]
    norm_num [getMotors, getMotorsGo, envA, devOk, devOff, validB, corr]

/-- Claim C7: if every reachable member errors on its angle or cartridge
read (in particular on the empty group), `getAngle` returns the
positive-infinity sentinel; and the final mean computation never divides
by zero (either the all-error early return fires, or the divisor
`getSize() - errors` is positive). -/
theorem getAngle_allError (env : Env) (ov : ℚ) (mm : List (Int × Bool)) :
    ((∀ p ∈ (getMotors env ov mm).1, validB (getMotors env ov mm).2.2 p = false) →
      (MotorGroup.getAngle env ov mm).1 = none) ∧
    ((gearAngleSum (getMotors env ov mm).2.2 ov (getMotors env ov mm).1).2 =
        (getMotors env ov mm).1.length ∨
      0 < (MotorGroup.getSize (getMotors env ov mm).2.2 ov (getMotors env ov mm).2.1).1 -
        ((gearAngleSum (getMotors env ov mm).2.2 ov (getMotors env ov mm).1).2 : Int)) := by
  have hsnd := gearAngleSum_snd (getMotors env ov mm).2.2 ov (getMotors env ov mm).1
  constructor
  · intro hall
    have hfe : (getMotors env ov mm).1.filter (validB (getMotors env ov mm).2.2) = [] := by
      rw [List.filter_eq_nil_iff]
      intro a ha
      rw [hall a ha]
      simp
    have heq : (gearAngleSum (getMotors env ov mm).2.2 ov (getMotors env ov mm).1).2 =
        (getMotors env ov mm).1.length := by
      rw [hfe] at hsnd
      simpa using hsnd
    rw [getAngle_fst, if_pos heq]
  · by_cases hc : (gearAngleSum (getMotors env ov mm).2.2 ov (getMotors env ov mm).1).2 =
        (getMotors env ov mm).1.length
    · exact Or.inl hc
    · right
      have hmsne : (getMotors env ov mm).1 ≠ [] := by
        intro h0
        rw [h0] at hc
        simp [gearAngleSum] at hc
      have hsz := getSize_stable env ov mm hmsne
      rw [hsz]
      omega

/-- Witness for C7: a one-member group whose angle read always errors
yields the sentinel, with the hypothesis discharged concretely. -/
theorem getAngle_allError_w :
    (∀ p ∈ (getMotors envErr 100 [(1, true)]).1,
      validB (getMotors envErr 100 [(1, true)]).2.2 p = false) ∧
    (MotorGroup.getAngle envErr 100 [(1, true)]).1 = none := by
  constructor
  · decide
  · exact (getAngle_allError envErr 100 [(1, true)]).1 (by decide)

/-- Claim C2 (code bug): on a reconnection edge the protocol writes the
raw mean of the peer angles (here (10 + 40) / 2 = 25) to the reconnected
unit, not the gear-corrected mean in the unit's own frame (which would be
(10/1 + 40/2) / 2 = 15 for peers with ratios 1 and 2 and a unit with
ratio 1). -/
theorem configure_rawMean :
    ((configureMotor envC2 100 [((5 : Int), true), (6, true)] 9).2 9).angleRead = some 25 ∧
    (25 : ℚ) ≠ 15 := by
  constructor
  · norm_num [configureMotor, brakeStep, setBrakeDev, setAngleDev, rawAngleSum,
      envC2, devOk, devOff, boolPort, INTMAX]
  · norm_num

/-- Claim C3 (code bug): the brake-copy step of the reconfiguration
protocol never writes the tracked peer's brake mode (`hold` on port 5)
onto the motor being configured (port 9), which keeps reading `coast`:
the loop constructs its motor from the boolean flag (port 1 or 0) and
writes the mode back to that same motor. -/
theorem configure_brakeNotCopied :
    (envC3 5).brakeRead = some BMode.hold ∧
    ((configureMotor envC3 100 [((5 : Int), true)] 9).2 9).brakeRead = some BMode.coast ∧
    some BMode.coast ≠ some BMode.hold := by
  refine ⟨by decide, ?_, by decide⟩
  norm_num [configureMotor, brakeStep, setBrakeDev, setAngleDev, rawAngleSum,
    envC3, devOk, devOff, boolPort, INTMAX]

/-- Claim C4, amended: `getMotors` keeps the stored ports unchanged; the
working set is exactly the members whose flag afterwards is
last-seen-connected; members flagged connected afterwards are installed;
a member that was flagged connected and probes as installed is included
directly; and on every reconnection edge (stored flag
last-seen-disconnected, probe reporting connected) the reconfiguration
protocol decides inclusion: the entry's updated flag — hence its
membership in the working set — is `true` exactly when `configureMotor`
returns 0 on the list view the source passes at that point (already
updated entries before it, the entry itself still flagged false, and the
original entries after it). The last conjunct states `configureMotor` on
the initial environment; its return value on the actually evolved
environment is the same because the code only mutates angle readings,
which the return value never depends on (`configureMotor_fst`,
`envInv_includeStep`). So the flag is set to last-seen-connected only
when reconfiguration succeeds, not regardless of its outcome. -/
theorem getMotors_flagSync (env : Env) (ov : ℚ) (mm : List (Int × Bool)) :
    ((getMotors env ov mm).2.1).map Prod.fst = mm.map Prod.fst ∧
    (getMotors env ov mm).1 =
      (((getMotors env ov mm).2.1).filter (fun pr => pr.2)).map Prod.fst ∧
    (∀ pr ∈ (getMotors env ov mm).2.1, pr.2 = true → (env pr.1).installed = true) ∧
    (∀ pr ∈ mm, pr.2 = true → (env pr.1).installed = true →
      pr.1 ∈ (getMotors env ov mm).1) ∧
    (∀ (pre : List (Int × Bool)) (p : Int) (rest : List (Int × Bool)),
      mm = pre ++ (p, false) :: rest → (env p).installed = true →
      ∃ (pre2 rest2 : List (Int × Bool)) (b : Bool),
        (getMotors env ov mm).2.1 = pre2 ++ (p, b) :: rest2 ∧
        pre2.length = pre.length ∧
        (b = true ↔ (configureMotor env ov (pre2 ++ (p, false) :: rest) p).1 = 0)) := by
  obtain ⟨h1, h2, h3⟩ := getMotors_parts env ov mm
  refine ⟨?_, ?_, ?_, ?_, ?_⟩
  · rw [h2]
    exact flagsGo_map_fst env mm []
  · rw [h1, h2]
  · rw [h2]
    exact fun pr hpr => flagsGo_true_inst env mm [] pr hpr
  · intro pr hpr ht hi
    have hmem := flagsGo_mem_true env mm [] pr hpr ht hi
    rw [h1]
    exact List.mem_map.mpr ⟨(pr.1, true), List.mem_filter.mpr ⟨hmem, rfl⟩, rfl⟩
  · intro pre p rest hdec hp
    obtain ⟨pre2, rest2, b, heq, hlen, hiff⟩ := flagsGo_edge env pre p rest [] hp
    refine ⟨pre2, rest2, b, ?_, hlen, ?_⟩
    · rw [h2, hdec, heq]
    · simp only [List.reverse_nil, List.nil_append] at hiff
      rw [hiff, configureMotor_fst]
      cases hinc : includeStep env (pre2 ++ (p, false) :: rest) p <;> simp [hinc, INTMAX]

/-- Witness for C4's amended statement: a concrete reconnection edge
(port 1 tracked as last-seen-disconnected but installed) on which
reconfiguration decides the updated flag. -/
theorem getMotors_flagSync_w :
    ((1 : Int) ∈ (getMotors envA 1 [((1 : Int), true)]).1) ∧
    (∃ (pre2 rest2 : List (Int × Bool)) (b : Bool),
      (getMotors envA 1 [((1 : Int), false)]).2.1 = pre2 ++ ((1 : Int), b) :: rest2 ∧
      pre2.length = ([] : List (Int × Bool)).length ∧
      (b = true ↔ (configureMotor envA 1 (pre2 ++ ((1 : Int), false) :: []) 1).1 = 0)) :=
  ⟨(getMotors_flagSync envA 1 [(1, true)]).2.2.2.1 (1, true) (by decide) rfl (by decide),
    (getMotors_flagSync envA 1 [(1, false)]).2.2.2.2 [] 1 [] rfl (by decide)⟩

/-- Counterexample to C4 as stated: a connected member on a reconnection
edge whose reconfiguration fails is excluded from the working set and its
reachability flag stays last-seen-disconnected — it is not updated to
last-seen-connected "regardless". -/
theorem getMotors_flagNotSet :
    (envC4 5).installed = true ∧
    (getMotors envC4 1 [((5 : Int), false)]).1 = [] ∧
    (getMotors envC4 1 [((5 : Int), false)]).2.1 = [(5, false)] := by
  refine ⟨by decide, ?_, ?_⟩ <;>
    norm_num [getMotors, getMotorsGo, configureMotor, brakeStep, setBrakeDev, setAngleDev,
      rawAngleSum, envC4, devOk, devOff, boolPort, INTMAX]

/-- Claim C5: `move`, `brake` and `setBrakeMode` each return 0 exactly
when at least one member of the reachable working set reports per-member
success, and the `INT_MAX` sentinel otherwise. -/
theorem groupCmd_success (env : Env) (ov : ℚ) (mm : List (Int × Bool)) (x : ℚ) (mode : BMode) :
    (MotorGroup.move env ov mm x).1 =
      (if 1 ≤ (getMotors env ov mm).1.countP (fun p => ((getMotors env ov mm).2.2 p).moveOk)
        then 0 else INTMAX) ∧
    (MotorGroup.brake env ov mm).1 =
      (if 1 ≤ (getMotors env ov mm).1.countP (fun p => ((getMotors env ov mm).2.2 p).brakeOk)
        then 0 else INTMAX) ∧
    (MotorGroup.setBrakeMode env ov mm mode).1 =
      (if 1 ≤ (getMotors env ov mm).1.countP (fun p => ((getMotors env ov mm).2.2 p).setBrakeOk)
        then 0 else INTMAX) := by
  refine ⟨?_, ?_, ?_⟩
  · have hfst : (MotorGroup.move env ov mm x).1 =
        if (getMotors env ov mm).1.any (fun p => ((getMotors env ov mm).2.2 p).moveOk)
          then 0 else INTMAX := rfl
    rw [hfst]
    by_cases hone :
      1 ≤ (getMotors env ov mm).1.countP (fun p => ((getMotors env ov mm).2.2 p).moveOk)
    · rw [if_pos ((any_iff_countP _ _).mpr hone), if_pos hone]
    · rw [if_neg (fun hh => hone ((any_iff_countP _ _).mp hh)), if_neg hone]
  · have hfst : (MotorGroup.brake env ov mm).1 =
        if (getMotors env ov mm).1.any (fun p => ((getMotors env ov mm).2.2 p).brakeOk)
          then 0 else INTMAX := rfl
    rw [hfst]
    by_cases hone :
      1 ≤ (getMotors env ov mm).1.countP (fun p => ((getMotors env ov mm).2.2 p).brakeOk)
    · rw [if_pos ((any_iff_countP _ _).mpr hone), if_pos hone]
    · rw [if_neg (fun hh => hone ((any_iff_countP _ _).mp hh)), if_neg hone]
  · have hfst : (MotorGroup.setBrakeMode env ov mm mode).1 =
        if (setBrakeModeAll mode (getMotors env ov mm).1 (getMotors env ov mm).2.2).1
          then 0 else INTMAX := rfl
    have hall := setBrakeModeAll_fst mode (getMotors env ov mm).1
      (getMotors env ov mm).2.2 (getMotors env ov mm).2.2 (fun q => rfl)
    rw [hfst, hall]
    by_cases hone :
      1 ≤ (getMotors env ov mm).1.countP (fun p => ((getMotors env ov mm).2.2 p).setBrakeOk)
    · rw [if_pos ((any_iff_countP _ _).mpr hone), if_pos hone]
    · rw [if_neg (fun hh => hone ((any_iff_countP _ _).mp hh)), if_neg hone]

/-- Claim C6: for every group state, `moveVelocity` issues, to each
member of the reachable working set whose cartridge is determinable, the
commanded velocity multiplied by that member's gear ratio
(`nominal / outputVelocity`), skipping working-set members whose
cartridge reads as invalid — and issues nothing to members outside the
working set. -/
theorem moveVelocity_sends (env : Env) (ov : ℚ) (mm : List (Int × Bool)) (v : ℚ) :
    (MotorGroup.moveVelocity env ov mm v).2.1 =
      (getMotors env ov mm).1.filterMap
        (fun p => (((getMotors env ov mm).2.2 p).cartRead).map (fun c => (p, v * (c / ov)))) := by
  have hfst : (MotorGroup.moveVelocity env ov mm v).2.1 =
      (velCmds (getMotors env ov mm).2.2 ov v (getMotors env ov mm).1).1 := rfl
  rw [hfst, velCmds_eq]

/-- Witness for C6 at the spec's example, on a partially reachable group:
ratings 100 and 200 rpm with output velocity 200 get `v/2` and `v` for
`v = 50`, while a third tracked but disconnected member gets nothing. -/
theorem moveVelocity_sends_w :
    (MotorGroup.moveVelocity envA 200 [((1 : Int), true), (2, true), (3, true)] 50).2.1 =
      [((1 : Int), (25 : ℚ)), (2, 50)] := by
  rw [moveVelocity_sends envA 200 [(1, true), (2, true), (3, true)] 50]
  norm_num [getMotors, getMotorsGo, envA, devOk, devOff, List.filterMap_cons,
    List.filterMap_nil]

/-- Claim C8: `addMotor` on a port whose absolute value is already tracked
returns the `INT_MAX` duplicate-membership error and leaves the
membership list and the driver state untouched (no reconfiguration is
run). -/
theorem addMotor_dup (env : Env) (ov : ℚ) (mm : List (Int × Bool)) (port : Int)
    (h : ∃ pr ∈ mm, pr.1.natAbs = port.natAbs) :
    MotorGroup.addMotor env ov mm port = (INTMAX, mm, env) := by
  have hany : mm.any (fun pr => pr.1.natAbs == port.natAbs) = true := by
    obtain ⟨pr, hpr, he⟩ := h
    exact List.any_eq_true.mpr ⟨pr, hpr, by simp [he]⟩
  simp [MotorGroup.addMotor, hany]

/-- Witness for C8: adding port -1 to a group already tracking port 1
fails and changes nothing. -/
theorem addMotor_dup_w :
    (∃ pr ∈ [((1 : Int), true)], pr.1.natAbs = (-1 : Int).natAbs) ∧
    MotorGroup.addMotor envA 1 [(1, true)] (-1) = (INTMAX, [(1, true)], envA) :=
  ⟨⟨(1, true), by decide, by decide⟩,
    addMotor_dup envA 1 [(1, true)] (-1) ⟨(1, true), by decide, by decide⟩⟩

/-- Counterexample to C9 as stated: the constructors perform no duplicate
check, so a group constructed from ports [1, 1] is reachable yet tracks
the absolute port 1 twice. -/
theorem reachable_dup :
    Reachable [((1 : Int), true), (1, true)] ∧
    ¬ (([((1 : Int), true), (1, true)]).map (fun pr => pr.1.natAbs)).Nodup := by
  constructor
  · have h : MotorGroup.mk [1, 1] = [((1 : Int), true), (1, true)] := by decide
    exact h ▸ Reachable.init [1, 1]
  · decide

/-- Claim C9, amended: in every group state reachable from a construction
whose stored ports have pairwise distinct absolute values, via
`removeMotor` calls and `addMotor` calls whose port fits the stored 8-bit
type, each port absolute value appears at most once. -/
theorem ports_nodup (mm : List (Int × Bool)) (h : ReachableD mm) :
    (mm.map (fun pr => pr.1.natAbs)).Nodup := by
  induction h with
  | init ports hnd =>
    unfold MotorGroup.mk
    rw [List.map_map]
    exact hnd
  | addM env2 ov mm2 port hp hr ih =>
    by_cases hdup : mm2.any (fun pr => pr.1.natAbs == port.natAbs) = true
    · simpa [MotorGroup.addMotor, hdup] using ih
    · have h21 : (MotorGroup.addMotor env2 ov mm2 port).2.1 =
          mm2 ++ [(wrap8 port, (configureMotor env2 ov mm2 port).1 == 0)] := by
        simp [MotorGroup.addMotor, hdup]
      rw [h21, List.map_append, List.map_cons, List.map_nil, hp]
      refine List.nodup_append.mpr ⟨ih, List.nodup_singleton _, ?_⟩
      intro a ha hb
      have hab : a = port.natAbs := by simpa using hb
      subst hab
      obtain ⟨pr, hpr, he⟩ := List.mem_map.mp ha
      exact hdup (List.any_eq_true.mpr ⟨pr, hpr, by simp [he]⟩)
  | removeM mm2 port hr ih =>
    unfold MotorGroup.removeMotor
    exact ih.sublist ((List.filter_sublist _).map _)

/-- Witness for C9's amended statement: a single-port construction keeps
its ports distinct. -/
theorem ports_nodup_w :
    (((MotorGroup.mk [1]) : List (Int × Bool)).map (fun pr => pr.1.natAbs)).Nodup :=
  ports_nodup _ (ReachableD.init [1] (by decide))

/-- Claim C10: the group-level `isConnected` only ever returns 0 or 1
(never an error sentinel), and returns 1 exactly when the reachable
working set is nonempty — the working set consists of members whose
connectivity probe reports connected. -/
theorem group_isConnected (env : Env) (ov : ℚ) (mm : List (Int × Bool)) :
    ((MotorGroup.isConnected env ov mm).1 = 0 ∨ (MotorGroup.isConnected env ov mm).1 = 1) ∧
    ((MotorGroup.isConnected env ov mm).1 = 1 ↔ (getMotors env ov mm).1 ≠ []) := by
  have hmemc : ∀ p ∈ (getMotors env ov mm).1,
      (Motor.isConnected (getMotors env ov mm).2.2 p == 1) = true := by
    intro p hp
    have hi := ms_installed env ov mm p hp
    have hinv := ((getMotors_parts env ov mm).2.2 p).1
    simp [Motor.isConnected, hinv, hi]
  have hfst : (MotorGroup.isConnected env ov mm).1 =
      if (getMotors env ov mm).1.any
        (fun p => Motor.isConnected (getMotors env ov mm).2.2 p == 1) then 1 else 0 := rfl
  constructor
  · rw [hfst]
    split_ifs <;> simp
  · rw [hfst]
    cases hl : (getMotors env ov mm).1 with
    | nil => simp
    | cons q qs =>
      have hq : (Motor.isConnected (getMotors env ov mm).2.2 q == 1) = true :=
        hmemc q (by rw [hl]; exact List.mem_cons_self _ _)
      simp [List.any_cons, hq]
